import Mathlib

set_option maxRecDepth 10000

/-!
Shallow embedding of the go-email2html MIME decoding pipeline (src/main.go).

Bytes are modelled as natural numbers below 256 (Go byte slices and Go
strings are byte sequences); header values are Lean strings.  Behavior of
Go standard library functions that main.go calls is modelled where its
observable outcome matters to the pipeline:
mime.ParseMediaType (base media-type extraction and validity check;
parameter parsing is not modelled because the only parameter main.go uses,
the multipart boundary, is absorbed by the MimePart-tree abstraction below),
encoding/base64 StdEncoding (standard alphabet, padding, newline skipping),
mime/quotedprintable (hex escapes and soft line breaks), and
mime.WordDecoder.DecodeHeader (abstracted as an oracle classifying each
header value's decode outcome, since main.go only inspects which outcome
class occurred).  The byte-level part splitting done by mime/multipart is
abstracted by the MimePart tree: a part's subs field stands for the list of
sub-parts that the multipart reader would produce from its decoded body.
-/

/-- Error values returned by the conversion in main.go: media-type parse
errors, the charsetError produced by the word decoder's CharsetReader,
transfer-decoding failures, and the error for an attachment whose filename
cannot be derived. -/
inductive ConvError where
  | mediaType (msg : String)
  | charset (cs : String)
  | transferDecode
  | unknownAttachmentType (mt : String)
deriving DecidableEq, Repr

/-- Go strings.Split with a one-character separator: strings.Split never
returns an empty list, and splitting the empty string yields one empty
field. -/
def splitOnChar (c : Char) : List Char → List (List Char)
  | [] => [[]]
  | a :: rest =>
    match splitOnChar c rest with
    | [] => [[]]
    | h :: t => if a = c then [] :: h :: t else (a :: h) :: t

/-- Go strings.Trim with a one-character cutset: drop every leading and
trailing occurrence of the character. -/
def trimChar (c : Char) (l : List Char) : List Char :=
  ((l.dropWhile (· = c)).reverse.dropWhile (· = c)).reverse

/-- Go strings.HasPrefix on character lists; the first argument is the
candidate prefix. -/
def hasPrefixL : List Char → List Char → Bool
  | [], _ => true
  | _ :: _, [] => false
  | p :: ps, c :: cs => p = c && hasPrefixL ps cs

/-- main.go isPlainText: strings.HasPrefix(contentType, "text/plain"). -/
def isPlainText (contentType : String) : Bool :=
  hasPrefixL "text/plain".data contentType.data

/-- main.go isHtml: strings.HasPrefix(contentType, "text/html"). -/
def isHtml (contentType : String) : Bool :=
  hasPrefixL "text/html".data contentType.data

/-- main.go isMultipart: strings.HasPrefix(contentType, "multipart/"). -/
def isMultipart (contentType : String) : Bool :=
  hasPrefixL "multipart/".data contentType.data

/-- main.go getFilename: split the Content-Disposition value on the
semicolon, take segment index 1 (empty result when there are fewer than two
segments), split that segment on the equals sign, take segment index 1
(empty result when there are fewer than two segments), and trim double
quotes from both ends. -/
def getFilename (contentDisposition : String) : String :=
  match splitOnChar ';' contentDisposition.data with
  | _ :: p1 :: _ =>
    match splitOnChar '=' p1 with
    | _ :: f1 :: _ => ⟨trimChar '"' f1⟩
    | _ => ""
  | _ => ""

/-- tspecials characters as in Go mime.isTSpecial. -/
def isTSpecial (c : Char) : Bool :=
  c = '(' || c = ')' || c = '<' || c = '>' || c = '@' || c = ',' || c = ';' ||
  c = ':' || c = '\\' || c = '"' || c = '/' || c = '[' || c = ']' || c = '?' || c = '='

/-- Go mime.isTokenChar: printable US-ASCII other than space, DEL and
tspecials. -/
def isTokenChar (c : Char) : Bool :=
  0x20 < c.toNat && c.toNat < 0x7f && !isTSpecial c

/-- Go mime.checkMediaTypeDisposition: a valid value is either a single
token or token "/" token with nothing following. -/
def checkMediaTypeDisposition (l : List Char) : Option String :=
  let typ := l.takeWhile isTokenChar
  let rest := l.dropWhile isTokenChar
  if typ.isEmpty then some "mime: no media type"
  else
    match rest with
    | [] => none
    | '/' :: r2 =>
      let sub := r2.takeWhile isTokenChar
      let rest2 := r2.dropWhile isTokenChar
      if sub.isEmpty then some "mime: expected token after slash"
      else if rest2.isEmpty then none
      else some "mime: unexpected content after media subtype"
    | _ => some "mime: expected slash after first token"

/-- Model of Go mime.ParseMediaType restricted to the base media type: the
value up to the first semicolon, space-trimmed and lower-cased, validated by
checkMediaTypeDisposition.  Parameter parsing (and its possible
mime.ErrInvalidMediaParameter) is not modelled; no claim depends on it. -/
def parseMediaType (v : String) : Except String String :=
  let base := (((splitOnChar ';' v.data).headD []).dropWhile Char.isWhitespace
      |>.reverse.dropWhile Char.isWhitespace).reverse.map Char.toLower
  match checkMediaTypeDisposition base with
  | some e => .error e
  | none => .ok ⟨base⟩

/-- Hex digit value as accepted by Go mime/quotedprintable readHexByte. -/
def hexVal (b : Nat) : Option Nat :=
  if 48 ≤ b ∧ b ≤ 57 then some (b - 48)
  else if 65 ≤ b ∧ b ≤ 70 then some (10 + (b - 65))
  else if 97 ≤ b ∧ b ≤ 102 then some (10 + (b - 97))
  else none

/-- Model of Go mime/quotedprintable decoding: an equals sign introduces
either a soft line break (an immediately following CRLF or LF, which is
dropped) or two hex digits standing for one byte; a malformed escape is a
decode error; every other byte passes through unchanged. -/
def qpDecodeBytes : List Nat → Except ConvError (List Nat)
  | [] => .ok []
  | b :: rest =>
    if b = 61 then
      match rest with
      | 13 :: 10 :: r => qpDecodeBytes r
      | 10 :: r => qpDecodeBytes r
      | a :: a2 :: r =>
        match hexVal a, hexVal a2 with
        | some x, some y => (qpDecodeBytes r).map (fun l => (16 * x + y) :: l)
        | _, _ => .error .transferDecode
      | _ => .error .transferDecode
    else (qpDecodeBytes rest).map (fun l => b :: l)

/-- main.go addContent wraps the part reader in a quotedprintable.Reader
exactly when the raw Content-Transfer-Encoding value equals
"quoted-printable"; otherwise the bytes are read unchanged. -/
def applyQP (cte : String) (body : List Nat) : Except ConvError (List Nat) :=
  if cte = "quoted-printable" then qpDecodeBytes body else .ok body

/-- Standard base64 alphabet, index to byte, as in Go
encoding/base64.StdEncoding. -/
def b64EncChar (i : Nat) : Nat :=
  if i < 26 then 65 + i
  else if i < 52 then 97 + (i - 26)
  else if i < 62 then 48 + (i - 52)
  else if i = 62 then 43
  else 47

/-- Standard base64 alphabet, byte to index. -/
def b64DecChar (c : Nat) : Option Nat :=
  if 65 ≤ c ∧ c ≤ 90 then some (c - 65)
  else if 97 ≤ c ∧ c ≤ 122 then some (26 + (c - 97))
  else if 48 ≤ c ∧ c ≤ 57 then some (52 + (c - 48))
  else if c = 43 then some 62
  else if c = 47 then some 63
  else none

/-- Go base64.StdEncoding encoding: three input bytes per four alphabet
bytes, with '=' (byte 61) padding for a final one- or two-byte group. -/
def b64encode : List Nat → List Nat
  | [] => []
  | [b0] => [b64EncChar (b0 / 4), b64EncChar (b0 % 4 * 16), 61, 61]
  | [b0, b1] =>
    [b64EncChar (b0 / 4), b64EncChar (b0 % 4 * 16 + b1 / 16), b64EncChar (b1 % 16 * 4), 61]
  | b0 :: b1 :: b2 :: rest =>
    b64EncChar (b0 / 4) :: b64EncChar (b0 % 4 * 16 + b1 / 16) ::
    b64EncChar (b1 % 16 * 4 + b2 / 64) :: b64EncChar (b2 % 64) :: b64encode rest

/-- Core of Go base64.StdEncoding.DecodeString after newline removal:
four-byte quanta, padding allowed only in the final quantum, error on any
byte outside the alphabet or on a length that is not a multiple of four. -/
def b64decodeCore : List Nat → Except ConvError (List Nat)
  | [] => .ok []
  | c0 :: c1 :: c2 :: c3 :: rest =>
    match b64DecChar c0, b64DecChar c1 with
    | some i0, some i1 =>
      if c2 = 61 then
        if c3 = 61 ∧ rest = [] then .ok [i0 * 4 + i1 / 16]
        else .error .transferDecode
      else
        match b64DecChar c2 with
        | some i2 =>
          if c3 = 61 then
            if rest = [] then .ok [i0 * 4 + i1 / 16, i1 % 16 * 16 + i2 / 4]
            else .error .transferDecode
          else
            match b64DecChar c3 with
            | some i3 =>
              (b64decodeCore rest).map
                (fun l => (i0 * 4 + i1 / 16) :: (i1 % 16 * 16 + i2 / 4) :: (i2 % 4 * 64 + i3) :: l)
            | none => .error .transferDecode
        | none => .error .transferDecode
    | _, _ => .error .transferDecode
  | _ => .error .transferDecode

/-- Go base64.StdEncoding.DecodeString: carriage returns and newlines are
ignored anywhere in the input, then the cleaned input is decoded in
four-byte quanta. -/
def b64decode (data : List Nat) : Except ConvError (List Nat) :=
  b64decodeCore (data.filter (fun c => c != 10 && c != 13))

/-- main.go addContent text branch: strings.Replace(text, "\n", "<br>\n", -1)
on the body bytes (the pattern is the single byte 10, replaced by the five
bytes of "<br>\n"). -/
def nlToBr : List Nat → List Nat
  | [] => []
  | b :: rest => (if b = 10 then [60, 98, 114, 62, 10] else [b]) ++ nlToBr rest

/-- main.go Attachment: raw decoded bytes plus a resolved filename. -/
structure Attachment where
  Data : List Nat
  Filename : String
deriving DecidableEq, Repr

/-- main.go Email: the output record.  Headers is the decoded header
mapping as an association list from header name to the ordered list of
decoded values.  Text is the Go string field, modelled as bytes. -/
structure Email where
  Date : String
  From : String
  To : String
  Subject : String
  Headers : List (String × List String)
  Html : Option Attachment
  Text : List Nat
  Attachments : List Attachment
deriving DecidableEq, Repr

/-- One MIME part as delivered by the multipart reader: the three header
values main.go reads (Content-Type, Content-Transfer-Encoding,
Content-Disposition, each "" when absent), the raw body bytes, and, as the
abstraction of mime/multipart splitting, the sub-parts that splitting the
transfer-decoded body at this part's boundary would produce. -/
inductive MimePart : Type where
  | part (contentType transferEncoding disposition : String)
      (body : List Nat) (subs : List MimePart)

mutual

/-- main.go addContent: wrap the reader for quoted-printable, read the
body, parse the media type, then dispatch: first plain-text part fills
Text (with newlines replaced), first HTML part fills Html, a multipart
part recurses over its sub-parts, and everything else is appended as an
attachment after optional base64 transfer decoding and filename
resolution. -/
def addContent (e : Email) (p : MimePart) : Except ConvError Email :=
  match p with
  | .part ct cte disp body subs =>
    match applyQP cte body with
    | .error er => .error er
    | .ok data =>
      match parseMediaType ct with
      | .error msg => .error (.mediaType msg)
      | .ok mt =>
        if isPlainText mt && e.Text.isEmpty then
          .ok { e with Text := nlToBr data }
        else if isHtml mt && e.Html.isNone then
          .ok { e with Html := some ⟨data, "email-content.html"⟩ }
        else if isMultipart mt then
          addParts e subs
        else
          match (if cte = "base64" then b64decode data else .ok data) with
          | .error _ => .error .transferDecode
          | .ok attachmentData =>
            let filename := getFilename disp
            if filename = "" then
              if isPlainText mt then
                .ok { e with Attachments := e.Attachments ++ [⟨attachmentData, "attachment.txt"⟩] }
              else if isHtml mt then
                .ok { e with Attachments := e.Attachments ++ [⟨attachmentData, "attachment.html"⟩] }
              else .error (.unknownAttachmentType mt)
            else
              .ok { e with Attachments := e.Attachments ++ [⟨attachmentData, filename⟩] }

/-- main.go handleMultipart: feed each part, in document order, through
addContent, aborting on the first error. -/
def addParts (e : Email) : List MimePart → Except ConvError Email
  | [] => .ok e
  | p :: rest =>
    match addContent e p with
    | .error er => .error er
    | .ok e' => addParts e' rest

end

/-- Outcome classes of mime.WordDecoder.DecodeHeader with main.go's
CharsetReader (which rejects every charset): full success with the decoded
text, failure caused by an unsupported charset (the charsetError path), or
any other failure (malformed encoded-word syntax). -/
inductive DecodeResult where
  | decoded (s : String)
  | charsetErr (cs : String)
  | otherErr

/-- main.go decodeRFC2047Word over a decode-outcome oracle: success returns
the decoded text and no error; a charsetError returns the original string
together with the error; any other failure returns the original string with
no error. -/
def decodeRFC2047Word (dec : String → DecodeResult) (s : String) :
    String × Option ConvError :=
  match dec s with
  | .decoded d => (d, none)
  | .charsetErr cs => (s, some (.charset cs))
  | .otherErr => (s, none)

/-- main.go handleMessage header loop body: decode each value of one
header, aborting on the first returned error. -/
def decodeValues (dec : String → DecodeResult) : List String → Except ConvError (List String)
  | [] => .ok []
  | v :: rest =>
    match decodeRFC2047Word dec v with
    | (_, some er) => .error er
    | (d, none) =>
      match decodeValues dec rest with
      | .error er => .error er
      | .ok ds => .ok (d :: ds)

/-- main.go handleMessage header loop: decode every value of every header,
aborting on the first returned error. -/
def decodeHeaderMap (dec : String → DecodeResult) :
    List (String × List String) → Except ConvError (List (String × List String))
  | [] => .ok []
  | (k, vs) :: rest =>
    match decodeValues dec vs with
    | .error er => .error er
    | .ok ds =>
      match decodeHeaderMap dec rest with
      | .error er => .error er
      | .ok hs => .ok ((k, ds) :: hs)

/-- One already-framed RFC 5322 message as mail.ReadMessage delivers it to
handleMessage: the raw top-level header values main.go reads ("" when
absent), the full header mapping, the raw body bytes, and the MimePart-tree
abstraction of splitting the body when the top-level type is multipart. -/
structure RawMessage where
  contentType : String
  fromV : String
  toV : String
  subjectV : String
  dateV : String
  headerValues : List (String × List String)
  cte : String
  disposition : String
  body : List Nat
  subs : List MimePart

/-- main.go handleMessage: parse the top-level media type, decode From, To
and Subject, decode the whole header mapping (aborting on any returned
error), then walk the multipart body, or run the whole body through
addContent as a single part. -/
def handleMessage (dec : String → DecodeResult) (m : RawMessage) : Except ConvError Email :=
  match parseMediaType m.contentType with
  | .error msg => .error (.mediaType msg)
  | .ok mediaType =>
    match decodeRFC2047Word dec m.fromV with
    | (_, some er) => .error er
    | (fromD, none) =>
      match decodeRFC2047Word dec m.toV with
      | (_, some er) => .error er
      | (toD, none) =>
        match decodeRFC2047Word dec m.subjectV with
        | (_, some er) => .error er
        | (subjectD, none) =>
          match decodeHeaderMap dec m.headerValues with
          | .error er => .error er
          | .ok headers =>
            let email : Email :=
              ⟨m.dateV, fromD, toD, subjectD, headers, none, [], []⟩
            if isMultipart mediaType then addParts email m.subs
            else addContent email (.part m.contentType m.cte m.disposition m.body m.subs)

deriving instance DecidableEq for Except

/-! Spec-side functions, written after the specification's words, used to
state the classification and ordering claims about the walk. -/

/-- Filename resolution exactly as the specification words it: parse the
disposition as a semicolon-separated list, take the second segment (index
1), split it on the equals sign, take the second segment, and strip
surrounding double quotes; the empty string when a segment is missing. -/
def specFilename (d : String) : String :=
  ⟨trimChar '"' ((splitOnChar '=' ((splitOnChar ';' d.data).getD 1 [])).getD 1 [])⟩

mutual

/-- Decoded body of the first part, in depth-first document order, whose
media type classifies as HTML, descending into multipart parts. -/
def firstHtmlP : MimePart → Option (List Nat)
  | .part ct cte _ body subs =>
    match parseMediaType ct with
    | .error _ => none
    | .ok mt =>
      if isHtml mt then (applyQP cte body).toOption
      else if isMultipart mt then firstHtmlL subs
      else none

/-- firstHtmlP over a part list, first hit wins. -/
def firstHtmlL : List MimePart → Option (List Nat)
  | [] => none
  | p :: rest =>
    match firstHtmlP p with
    | some d => some d
    | none => firstHtmlL rest

end

mutual

/-- Decoded body of the first part, in depth-first document order, whose
media type classifies as plain text and whose decoded body is non-empty,
descending into multipart parts. -/
def firstTextP : MimePart → Option (List Nat)
  | .part ct cte _ body subs =>
    match parseMediaType ct with
    | .error _ => none
    | .ok mt =>
      if isPlainText mt then
        match applyQP cte body with
        | .ok d => if d.isEmpty then none else some d
        | .error _ => none
      else if isMultipart mt then firstTextL subs
      else none

/-- firstTextP over a part list, first hit wins. -/
def firstTextL : List MimePart → Option (List Nat)
  | [] => none
  | p :: rest =>
    match firstTextP p with
    | some d => some d
    | none => firstTextL rest

end

mutual

/-- Spec-side mirror of the walk, reduced to what attachment production
observes: the booleans "text slot still empty" and "html slot already
filled".  It returns the attachments a part contributes, in depth-first
document order, together with the updated booleans. -/
def walkAttsP (tE hS : Bool) : MimePart → Except ConvError (List Attachment × Bool × Bool)
  | .part ct cte disp body subs =>
    match applyQP cte body with
    | .error er => .error er
    | .ok data =>
      match parseMediaType ct with
      | .error msg => .error (.mediaType msg)
      | .ok mt =>
        if isPlainText mt && tE then .ok ([], data.isEmpty, hS)
        else if isHtml mt && !hS then .ok ([], tE, true)
        else if isMultipart mt then walkAttsL tE hS subs
        else
          match (if cte = "base64" then b64decode data else .ok data) with
          | .error _ => .error .transferDecode
          | .ok ad =>
            if getFilename disp = "" then
              if isPlainText mt then .ok ([⟨ad, "attachment.txt"⟩], tE, hS)
              else if isHtml mt then .ok ([⟨ad, "attachment.html"⟩], tE, hS)
              else .error (.unknownAttachmentType mt)
            else .ok ([⟨ad, getFilename disp⟩], tE, hS)

/-- walkAttsP over a part list: contributions are concatenated in document
order, threading the two booleans left to right. -/
def walkAttsL (tE hS : Bool) : List MimePart → Except ConvError (List Attachment × Bool × Bool)
  | [] => .ok ([], tE, hS)
  | p :: rest =>
    match walkAttsP tE hS p with
    | .error er => .error er
    | .ok (l1, tE1, hS1) =>
      match walkAttsL tE1 hS1 rest with
      | .error er => .error er
      | .ok (l2, tE2, hS2) => .ok (l1 ++ l2, tE2, hS2)

end

/-! Helper lemmas. -/

theorem hasPrefixL_iff (p l : List Char) : hasPrefixL p l = true ↔ ∃ t, l = p ++ t := by
  induction p generalizing l with
  | nil => simp [hasPrefixL]
  | cons a ps ih =>
    cases l with
    | nil => simp [hasPrefixL]
    | cons c cs =>
      simp only [hasPrefixL, Bool.and_eq_true, decide_eq_true_eq, ih, List.cons_append,
        List.cons.injEq]
      constructor
      · rintro ⟨rfl, t, rfl⟩
        exact ⟨t, rfl, rfl⟩
      · rintro ⟨t, rfl, rfl⟩
        exact ⟨rfl, t, rfl⟩

theorem text_plain_data : "text/plain".data = ['t', 'e', 'x', 't', '/', 'p', 'l', 'a', 'i', 'n'] := rfl

theorem text_html_data : "text/html".data = ['t', 'e', 'x', 't', '/', 'h', 't', 'm', 'l'] := rfl

theorem multipart_slash_data : "multipart/".data = ['m', 'u', 'l', 't', 'i', 'p', 'a', 'r', 't', '/'] := rfl

theorem isPlainText_not_isHtml {mt : String} (h : isPlainText mt = true) : isHtml mt = false := by
  unfold isPlainText at h
  unfold isHtml
  rw [text_plain_data, hasPrefixL_iff] at h
  obtain ⟨t, ht⟩ := h
  rw [text_html_data, ht]
  simp [hasPrefixL]

theorem isPlainText_not_isMultipart {mt : String} (h : isPlainText mt = true) :
    isMultipart mt = false := by
  unfold isPlainText at h
  unfold isMultipart
  rw [text_plain_data, hasPrefixL_iff] at h
  obtain ⟨t, ht⟩ := h
  rw [multipart_slash_data, ht]
  simp [hasPrefixL]

theorem isHtml_not_isPlainText {mt : String} (h : isHtml mt = true) : isPlainText mt = false := by
  unfold isHtml at h
  unfold isPlainText
  rw [text_html_data, hasPrefixL_iff] at h
  obtain ⟨t, ht⟩ := h
  rw [text_plain_data, ht]
  simp [hasPrefixL]

theorem isHtml_not_isMultipart {mt : String} (h : isHtml mt = true) : isMultipart mt = false := by
  unfold isHtml at h
  unfold isMultipart
  rw [text_html_data, hasPrefixL_iff] at h
  obtain ⟨t, ht⟩ := h
  rw [multipart_slash_data, ht]
  simp [hasPrefixL]

theorem nlToBr_eq_nil {d : List Nat} : nlToBr d = [] ↔ d = [] := by
  cases d with
  | nil => simp [nlToBr]
  | cons b rest =>
    constructor
    · intro h
      rcases List.append_eq_nil.mp h with ⟨h1, -⟩
      by_cases hb : b = 10 <;> simp [hb] at h1
    · intro h
      exact absurd h (List.cons_ne_nil b rest)

theorem nlToBr_isEmpty {d : List Nat} : (nlToBr d).isEmpty = d.isEmpty := by
  cases d with
  | nil => rfl
  | cons b rest =>
    have hne : nlToBr (b :: rest) ≠ [] := fun h =>
      absurd (nlToBr_eq_nil.mp h) (List.cons_ne_nil b rest)
    rcases hx : nlToBr (b :: rest) with - | ⟨c, cs⟩
    · exact absurd hx hne
    · rfl

theorem bnot_isSome {α : Type} (o : Option α) : (!o.isSome) = o.isNone := by
  cases o <;> rfl

theorem firstHtmlP_eval (ct cte disp : String) (body : List Nat) (subs : List MimePart)
    (data : List Nat) (mt : String) (hq : applyQP cte body = .ok data)
    (hm : parseMediaType ct = .ok mt) :
    firstHtmlP (.part ct cte disp body subs) =
      if isHtml mt then some data
      else if isMultipart mt then firstHtmlL subs
      else none := by
  rw [firstHtmlP.eq_def]
  simp only []
  rw [hm]
  simp only []
  rw [hq]
  rfl

theorem firstTextP_eval (ct cte disp : String) (body : List Nat) (subs : List MimePart)
    (data : List Nat) (mt : String) (hq : applyQP cte body = .ok data)
    (hm : parseMediaType ct = .ok mt) :
    firstTextP (.part ct cte disp body subs) =
      if isPlainText mt then (if data.isEmpty then none else some data)
      else if isMultipart mt then firstTextL subs
      else none := by
  rw [firstTextP.eq_def]
  simp only []
  rw [hm]
  simp only []
  rw [hq]

theorem walkAttsP_eval (tE hS : Bool) (ct cte disp : String) (body : List Nat)
    (subs : List MimePart) (data : List Nat) (mt : String)
    (hq : applyQP cte body = .ok data) (hm : parseMediaType ct = .ok mt) :
    walkAttsP tE hS (.part ct cte disp body subs) =
      (if isPlainText mt && tE then .ok ([], data.isEmpty, hS)
      else if isHtml mt && !hS then .ok ([], tE, true)
      else if isMultipart mt then walkAttsL tE hS subs
      else
        match (if cte = "base64" then b64decode data else .ok data) with
        | .error _ => .error .transferDecode
        | .ok ad =>
          if getFilename disp = "" then
            if isPlainText mt then .ok ([⟨ad, "attachment.txt"⟩], tE, hS)
            else if isHtml mt then .ok ([⟨ad, "attachment.html"⟩], tE, hS)
            else .error (.unknownAttachmentType mt)
          else .ok ([⟨ad, getFilename disp⟩], tE, hS)) := by
  rw [walkAttsP.eq_def]
  simp only []
  rw [hq]
  simp only []
  rw [hm]

mutual

theorem firstTextP_ne (p : MimePart) (d : List Nat) (h : firstTextP p = some d) : d ≠ [] := by
  cases p with
  | part ct cte disp body subs =>
    rw [firstTextP.eq_def] at h
    simp only [] at h
    cases hm : parseMediaType ct with
    | error msg =>
      rw [hm] at h
      simp only [] at h
      exact absurd h (by simp)
    | ok mt =>
    rw [hm] at h
    simp only [] at h
    by_cases hpt : isPlainText mt = true
    · rw [if_pos hpt] at h
      cases hq : applyQP cte body with
      | error er =>
        rw [hq] at h
        exact absurd h (by simp)
      | ok dd =>
      rw [hq] at h
      simp only [] at h
      by_cases hde : dd.isEmpty = true
      · rw [if_pos hde] at h
        exact absurd h (by simp)
      · rw [if_neg hde] at h
        rw [Option.some.injEq] at h
        subst h
        exact fun hcon => hde (by rw [hcon]; rfl)
    · rw [if_neg hpt] at h
      by_cases hmp : isMultipart mt = true
      · rw [if_pos hmp] at h
        exact firstTextL_ne subs d h
      · rw [if_neg hmp] at h
        exact absurd h (by simp)

theorem firstTextL_ne (ps : List MimePart) (d : List Nat) (h : firstTextL ps = some d) :
    d ≠ [] := by
  cases ps with
  | nil =>
    rw [firstTextL.eq_def] at h
    exact absurd h (by simp)
  | cons p rest =>
    rw [firstTextL.eq_def] at h
    simp only [] at h
    cases hp : firstTextP p with
    | some dd =>
      rw [hp] at h
      simp only [Option.some.injEq] at h
      subst h
      exact firstTextP_ne p dd hp
    | none =>
      rw [hp] at h
      simp only [] at h
      exact firstTextL_ne rest d h

end

mutual

theorem addContent_spec (e : Email) (p : MimePart) (e' : Email)
    (h : addContent e p = .ok e') :
    (e.Text ≠ [] → e'.Text = e.Text) ∧
    (∀ a, e.Html = some a → e'.Html = some a) ∧
    (e.Html = none →
      e'.Html = (firstHtmlP p).map (fun d => ⟨d, "email-content.html"⟩)) ∧
    (e.Text = [] → e'.Text = ((firstTextP p).map nlToBr).getD []) ∧
    (∃ l, walkAttsP e.Text.isEmpty e.Html.isSome p
        = .ok (l, e'.Text.isEmpty, e'.Html.isSome) ∧
      e'.Attachments = e.Attachments ++ l) := by
  cases p with
  | part ct cte disp body subs =>
    rw [addContent.eq_def] at h
    simp only [] at h
    cases hq : applyQP cte body with
    | error er =>
      rw [hq] at h
      exact absurd h (by simp)
    | ok data =>
    rw [hq] at h
    simp only [] at h
    cases hm : parseMediaType ct with
    | error msg =>
      rw [hm] at h
      exact absurd h (by simp)
    | ok mt =>
    rw [hm] at h
    simp only [] at h
    by_cases h1 : (isPlainText mt && e.Text.isEmpty) = true
    · -- text branch
      rw [if_pos h1] at h
      rw [Except.ok.injEq] at h
      subst h
      obtain ⟨hpt, hTe⟩ := Bool.and_eq_true _ _ |>.mp h1
      refine ⟨?_, ?_, ?_, ?_, ?_⟩
      · intro hne
        exact absurd (List.isEmpty_iff.mp hTe) hne
      · intro a ha
        exact ha
      · intro hH
        rw [firstHtmlP_eval ct cte disp body subs data mt hq hm,
          isPlainText_not_isHtml hpt, isPlainText_not_isMultipart hpt]
        simpa using hH
      · intro hT
        rw [firstTextP_eval ct cte disp body subs data mt hq hm, hpt]
        by_cases hde : data.isEmpty = true
        · rw [if_pos hde]
          simp [List.isEmpty_iff.mp hde, nlToBr]
        · rw [if_neg hde]
          simp [nlToBr]
      · refine ⟨[], ?_, by simp⟩
        rw [walkAttsP_eval e.Text.isEmpty e.Html.isSome ct cte disp body subs data mt hq hm,
          if_pos h1]
        simp [nlToBr_isEmpty]
    · -- not the text branch
      rw [if_neg h1] at h
      by_cases h2 : (isHtml mt && e.Html.isNone) = true
      · -- html branch
        rw [if_pos h2] at h
        rw [Except.ok.injEq] at h
        subst h
        obtain ⟨hih, hHn⟩ := Bool.and_eq_true _ _ |>.mp h2
        refine ⟨?_, ?_, ?_, ?_, ?_⟩
        · intro hne
          rfl
        · intro a ha
          rw [ha] at hHn
          exact absurd hHn (by simp)
        · intro hH
          rw [firstHtmlP_eval ct cte disp body subs data mt hq hm, hih]
          simp
        · intro hT
          rw [firstTextP_eval ct cte disp body subs data mt hq hm,
            isHtml_not_isPlainText hih, isHtml_not_isMultipart hih]
          simpa using hT
        · refine ⟨[], ?_, by simp⟩
          rw [walkAttsP_eval e.Text.isEmpty e.Html.isSome ct cte disp body subs data mt hq hm]
          rw [if_neg h1]
          rw [bnot_isSome]
          rw [if_pos h2]
          simp
      · rw [if_neg h2] at h
        by_cases h3 : isMultipart mt = true
        · -- multipart branch
          rw [if_pos h3] at h
          obtain ⟨m1, m2, f1, f2, l, w, ha⟩ := addParts_spec e subs e' h
          refine ⟨m1, m2, ?_, ?_, ?_⟩
          · intro hH
            have hih : isHtml mt = false := by
              cases hih : isHtml mt
              · rfl
              · exact absurd (by rw [hih, hH]; rfl) h2
            rw [firstHtmlP_eval ct cte disp body subs data mt hq hm, hih, h3]
            simp only [if_false, Bool.false_eq_true, if_true]
            exact f1 hH
          · intro hT
            have hpt : isPlainText mt = false := by
              cases hpt : isPlainText mt
              · rfl
              · exact absurd (by rw [hpt, List.isEmpty_iff.mpr hT]; rfl) h1
            rw [firstTextP_eval ct cte disp body subs data mt hq hm, hpt, h3]
            simp only [if_false, Bool.false_eq_true, if_true]
            exact f2 hT
          · refine ⟨l, ?_, ha⟩
            rw [walkAttsP_eval e.Text.isEmpty e.Html.isSome ct cte disp body subs data mt hq hm,
              if_neg h1, bnot_isSome, if_neg h2, if_pos h3]
            exact w
        · -- attachment branch
          rw [if_neg h3] at h
          cases hb : (if cte = "base64" then b64decode data else Except.ok data) with
          | error er2 =>
            rw [hb] at h
            exact absurd h (by simp)
          | ok ad =>
          rw [hb] at h
          simp only [] at h
          have hmf : isMultipart mt = false := by simpa using h3
          have hatts : ∀ fn : String,
              e' = { e with Attachments := e.Attachments ++ [⟨ad, fn⟩] } →
              walkAttsP e.Text.isEmpty e.Html.isSome (.part ct cte disp body subs)
                = .ok ([⟨ad, fn⟩], e.Text.isEmpty, e.Html.isSome) →
              (e.Text ≠ [] → e'.Text = e.Text) ∧
              (∀ a, e.Html = some a → e'.Html = some a) ∧
              (e.Html = none →
                e'.Html = (firstHtmlP (.part ct cte disp body subs)).map
                  (fun d => ⟨d, "email-content.html"⟩)) ∧
              (e.Text = [] →
                e'.Text = ((firstTextP (.part ct cte disp body subs)).map nlToBr).getD []) ∧
              (∃ l, walkAttsP e.Text.isEmpty e.Html.isSome (.part ct cte disp body subs)
                  = .ok (l, e'.Text.isEmpty, e'.Html.isSome) ∧
                e'.Attachments = e.Attachments ++ l) := by
            intro fn he hw
            subst he
            refine ⟨?_, ?_, ?_, ?_, ?_⟩
            · intro hne
              rfl
            · intro a ha
              exact ha
            · intro hH
              have hih : isHtml mt = false := by
                cases hih : isHtml mt
                · rfl
                · exact absurd (by rw [hih, hH]; rfl) h2
              rw [firstHtmlP_eval ct cte disp body subs data mt hq hm, hih, hmf]
              simpa using hH
            · intro hT
              have hpt : isPlainText mt = false := by
                cases hpt : isPlainText mt
                · rfl
                · exact absurd (by rw [hpt, List.isEmpty_iff.mpr hT]; rfl) h1
              rw [firstTextP_eval ct cte disp body subs data mt hq hm, hpt, hmf]
              simpa using hT
            · exact ⟨[⟨ad, fn⟩], hw, by simp⟩
          by_cases hf : getFilename disp = ""
          · rw [if_pos hf] at h
            by_cases hpt : isPlainText mt = true
            · rw [if_pos hpt] at h
              rw [Except.ok.injEq] at h
              refine hatts "attachment.txt" h.symm ?_
              rw [walkAttsP_eval e.Text.isEmpty e.Html.isSome ct cte disp body subs data mt hq hm,
                if_neg h1, bnot_isSome, if_neg h2, if_neg h3, hb]
              simp only []
              rw [if_pos hf, if_pos hpt]
            · rw [if_neg hpt] at h
              by_cases hih : isHtml mt = true
              · rw [if_pos hih] at h
                rw [Except.ok.injEq] at h
                refine hatts "attachment.html" h.symm ?_
                rw [walkAttsP_eval e.Text.isEmpty e.Html.isSome ct cte disp body subs data mt hq hm,
                  if_neg h1, bnot_isSome, if_neg h2, if_neg h3, hb]
                simp only []
                rw [if_pos hf, if_neg hpt, if_pos hih]
              · rw [if_neg hih] at h
                exact absurd h (by simp)
          · rw [if_neg hf] at h
            rw [Except.ok.injEq] at h
            refine hatts (getFilename disp) h.symm ?_
            rw [walkAttsP_eval e.Text.isEmpty e.Html.isSome ct cte disp body subs data mt hq hm,
              if_neg h1, bnot_isSome, if_neg h2, if_neg h3, hb]
            simp only []
            rw [if_neg hf]
termination_by sizeOf p

theorem addParts_spec (e : Email) (ps : List MimePart) (e' : Email)
    (h : addParts e ps = .ok e') :
    (e.Text ≠ [] → e'.Text = e.Text) ∧
    (∀ a, e.Html = some a → e'.Html = some a) ∧
    (e.Html = none →
      e'.Html = (firstHtmlL ps).map (fun d => ⟨d, "email-content.html"⟩)) ∧
    (e.Text = [] → e'.Text = ((firstTextL ps).map nlToBr).getD []) ∧
    (∃ l, walkAttsL e.Text.isEmpty e.Html.isSome ps
        = .ok (l, e'.Text.isEmpty, e'.Html.isSome) ∧
      e'.Attachments = e.Attachments ++ l) := by
  cases ps with
  | nil =>
    rw [addParts.eq_def] at h
    simp only [Except.ok.injEq] at h
    subst h
    refine ⟨fun _ => rfl, fun a ha => ha, ?_, ?_, ⟨[], ?_, by simp⟩⟩
    · intro hH
      rw [firstHtmlL.eq_def]
      simpa using hH
    · intro hT
      rw [firstTextL.eq_def]
      simpa using hT
    · rw [walkAttsL.eq_def]
  | cons p rest =>
    rw [addParts.eq_def] at h
    simp only [] at h
    cases hc : addContent e p with
    | error er =>
      rw [hc] at h
      exact absurd h (by simp)
    | ok e1 =>
    rw [hc] at h
    simp only [] at h
    obtain ⟨m1T, m1H, f1H, f1T, l1, w1, a1⟩ := addContent_spec e p e1 hc
    obtain ⟨m2T, m2H, f2H, f2T, l2, w2, a2⟩ := addParts_spec e1 rest e' h
    refine ⟨?_, ?_, ?_, ?_, ?_⟩
    · intro hne
      have h1t := m1T hne
      exact (m2T (h1t ▸ hne)).trans h1t
    · intro a ha
      exact m2H a (m1H a ha)
    · intro hH
      rw [firstHtmlL.eq_def]
      simp only []
      cases hfp : firstHtmlP p with
      | some d =>
        have he1 : e1.Html = some ⟨d, "email-content.html"⟩ := by
          rw [f1H hH, hfp]
          rfl
        simpa using m2H _ he1
      | none =>
        have he1 : e1.Html = none := by
          rw [f1H hH, hfp]
          rfl
        simpa using f2H he1
    · intro hT
      rw [firstTextL.eq_def]
      simp only []
      cases hft : firstTextP p with
      | some d =>
        have he1 : e1.Text = nlToBr d := by
          rw [f1T hT, hft]
          rfl
        have hdne : d ≠ [] := firstTextP_ne p d hft
        have he1ne : e1.Text ≠ [] := by
          rw [he1]
          exact fun hcon => hdne (nlToBr_eq_nil.mp hcon)
        simpa using (m2T he1ne).trans he1
      | none =>
        have he1 : e1.Text = [] := by
          rw [f1T hT, hft]
          rfl
        simpa using f2T he1
    · refine ⟨l1 ++ l2, ?_, ?_⟩
      · rw [walkAttsL.eq_def]
        simp only []
        rw [w1]
        simp only []
        rw [w2]
      · rw [a2, a1, List.append_assoc]
termination_by sizeOf ps

end

/-! Base64 round-trip. -/

theorem b64DecEnc : ∀ i, i < 64 → b64DecChar (b64EncChar i) = some i := by decide

theorem b64EncChar_ne : ∀ i, i < 64 →
    b64EncChar i ≠ 61 ∧ b64EncChar i ≠ 10 ∧ b64EncChar i ≠ 13 := by decide

theorem ne1013_bool (x : Nat) (hx : x ≠ 10) (hx2 : x ≠ 13) :
    (x != 10 && x != 13) = true := by
  simp [hx, hx2]

theorem b64encode_bytes : ∀ (b : List Nat), (∀ x ∈ b, x < 256) →
    ∀ c ∈ b64encode b, (c != 10 && c != 13) = true
  | [], _ => by simp [b64encode]
  | [b0], hb => by
    have h0 : b0 < 256 := hb b0 (by simp)
    have e1 := b64EncChar_ne (b0 / 4) (by omega)
    have e2 := b64EncChar_ne (b0 % 4 * 16) (by omega)
    intro c hc
    simp only [b64encode, List.mem_cons, List.not_mem_nil, or_false] at hc
    rcases hc with rfl | rfl | rfl | rfl
    · exact ne1013_bool _ e1.2.1 e1.2.2
    · exact ne1013_bool _ e2.2.1 e2.2.2
    · decide
    · decide
  | [b0, b1], hb => by
    have h0 : b0 < 256 := hb b0 (by simp)
    have h1 : b1 < 256 := hb b1 (by simp)
    have e1 := b64EncChar_ne (b0 / 4) (by omega)
    have e2 := b64EncChar_ne (b0 % 4 * 16 + b1 / 16) (by omega)
    have e3 := b64EncChar_ne (b1 % 16 * 4) (by omega)
    intro c hc
    simp only [b64encode, List.mem_cons, List.not_mem_nil, or_false] at hc
    rcases hc with rfl | rfl | rfl | rfl
    · exact ne1013_bool _ e1.2.1 e1.2.2
    · exact ne1013_bool _ e2.2.1 e2.2.2
    · exact ne1013_bool _ e3.2.1 e3.2.2
    · decide
  | b0 :: b1 :: b2 :: rest, hb => by
    have h0 : b0 < 256 := hb b0 (by simp)
    have h1 : b1 < 256 := hb b1 (by simp)
    have h2 : b2 < 256 := hb b2 (by simp)
    have e1 := b64EncChar_ne (b0 / 4) (by omega)
    have e2 := b64EncChar_ne (b0 % 4 * 16 + b1 / 16) (by omega)
    have e3 := b64EncChar_ne (b1 % 16 * 4 + b2 / 64) (by omega)
    have e4 := b64EncChar_ne (b2 % 64) (by omega)
    have ih := b64encode_bytes rest (fun x hx => hb x (by simp [hx]))
    intro c hc
    simp only [b64encode, List.mem_cons] at hc
    rcases hc with rfl | rfl | rfl | rfl | hc
    · exact ne1013_bool _ e1.2.1 e1.2.2
    · exact ne1013_bool _ e2.2.1 e2.2.2
    · exact ne1013_bool _ e3.2.1 e3.2.2
    · exact ne1013_bool _ e4.2.1 e4.2.2
    · exact ih c hc

theorem b64decodeCore_cons (i0 i1 i2 i3 : Nat) (rest : List Nat)
    (h0 : i0 < 64) (h1 : i1 < 64) (h2 : i2 < 64) (h3 : i3 < 64) :
    b64decodeCore (b64EncChar i0 :: b64EncChar i1 :: b64EncChar i2 :: b64EncChar i3 :: rest)
      = (b64decodeCore rest).map
          (fun l => (i0 * 4 + i1 / 16) :: (i1 % 16 * 16 + i2 / 4) :: (i2 % 4 * 64 + i3) :: l) := by
  have n2 := (b64EncChar_ne i2 h2).1
  have n3 := (b64EncChar_ne i3 h3).1
  simp only [b64decodeCore, b64DecEnc i0 h0, b64DecEnc i1 h1, b64DecEnc i2 h2, b64DecEnc i3 h3,
    if_neg n2, if_neg n3]

theorem b64decodeCore_pad2 (i0 i1 : Nat) (h0 : i0 < 64) (h1 : i1 < 64) :
    b64decodeCore [b64EncChar i0, b64EncChar i1, 61, 61] = .ok [i0 * 4 + i1 / 16] := by
  simp only [b64decodeCore, b64DecEnc i0 h0, b64DecEnc i1 h1]
  simp

theorem b64decodeCore_pad1 (i0 i1 i2 : Nat) (h0 : i0 < 64) (h1 : i1 < 64) (h2 : i2 < 64) :
    b64decodeCore [b64EncChar i0, b64EncChar i1, b64EncChar i2, 61]
      = .ok [i0 * 4 + i1 / 16, i1 % 16 * 16 + i2 / 4] := by
  have n2 := (b64EncChar_ne i2 h2).1
  simp only [b64decodeCore, b64DecEnc i0 h0, b64DecEnc i1 h1, b64DecEnc i2 h2, if_neg n2]
  simp

theorem b64decodeCore_encode : ∀ (b : List Nat), (∀ x ∈ b, x < 256) →
    b64decodeCore (b64encode b) = .ok b
  | [], _ => rfl
  | [b0], hb => by
    have h0 : b0 < 256 := hb b0 (by simp)
    rw [show b64encode [b0] = [b64EncChar (b0 / 4), b64EncChar (b0 % 4 * 16), 61, 61] from rfl]
    rw [b64decodeCore_pad2 _ _ (by omega) (by omega)]
    have : b0 / 4 * 4 + b0 % 4 * 16 / 16 = b0 := by omega
    rw [this]
  | [b0, b1], hb => by
    have h0 : b0 < 256 := hb b0 (by simp)
    have h1 : b1 < 256 := hb b1 (by simp)
    rw [show b64encode [b0, b1] = [b64EncChar (b0 / 4), b64EncChar (b0 % 4 * 16 + b1 / 16),
      b64EncChar (b1 % 16 * 4), 61] from rfl]
    rw [b64decodeCore_pad1 _ _ _ (by omega) (by omega) (by omega)]
    have o0 : b0 / 4 * 4 + (b0 % 4 * 16 + b1 / 16) / 16 = b0 := by omega
    have o1 : (b0 % 4 * 16 + b1 / 16) % 16 * 16 + b1 % 16 * 4 / 4 = b1 := by omega
    rw [o0, o1]
  | b0 :: b1 :: b2 :: rest, hb => by
    have h0 : b0 < 256 := hb b0 (by simp)
    have h1 : b1 < 256 := hb b1 (by simp)
    have h2 : b2 < 256 := hb b2 (by simp)
    have ih := b64decodeCore_encode rest (fun x hx => hb x (by simp [hx]))
    rw [show b64encode (b0 :: b1 :: b2 :: rest) = b64EncChar (b0 / 4) ::
      b64EncChar (b0 % 4 * 16 + b1 / 16) :: b64EncChar (b1 % 16 * 4 + b2 / 64) ::
      b64EncChar (b2 % 64) :: b64encode rest from rfl]
    rw [b64decodeCore_cons _ _ _ _ _ (by omega) (by omega) (by omega) (by omega), ih]
    have o0 : b0 / 4 * 4 + (b0 % 4 * 16 + b1 / 16) / 16 = b0 := by omega
    have o1 : (b0 % 4 * 16 + b1 / 16) % 16 * 16 + (b1 % 16 * 4 + b2 / 64) / 4 = b1 := by omega
    have o2 : (b1 % 16 * 4 + b2 / 64) % 4 * 64 + b2 % 64 = b2 := by omega
    simp only [Except.map, o0, o1, o2]

theorem b64decode_encode (b : List Nat) (hb : ∀ x ∈ b, x < 256) :
    b64decode (b64encode b) = .ok b := by
  unfold b64decode
  rw [List.filter_eq_self.mpr (b64encode_bytes b hb), b64decodeCore_encode b hb]

/-! Branch-evaluation lemmas for addContent. -/

theorem addContent_textBranch (e : Email) (ct cte disp : String) (body : List Nat)
    (subs : List MimePart) (mt : String) (data : List Nat)
    (hm : parseMediaType ct = .ok mt) (hq : applyQP cte body = .ok data)
    (hpt : isPlainText mt = true) (hT : e.Text = []) :
    addContent e (.part ct cte disp body subs) = .ok { e with Text := nlToBr data } := by
  rw [addContent.eq_def]
  simp only []
  rw [hq]
  simp only []
  rw [hm]
  simp only []
  rw [if_pos (by rw [hpt, List.isEmpty_iff.mpr hT]; rfl)]

theorem addContent_htmlBranch (e : Email) (ct cte disp : String) (body : List Nat)
    (subs : List MimePart) (mt : String) (data : List Nat)
    (hm : parseMediaType ct = .ok mt) (hq : applyQP cte body = .ok data)
    (hih : isHtml mt = true) (hH : e.Html = none) :
    addContent e (.part ct cte disp body subs)
      = .ok { e with Html := some ⟨data, "email-content.html"⟩ } := by
  rw [addContent.eq_def]
  simp only []
  rw [hq]
  simp only []
  rw [hm]
  simp only []
  rw [if_neg (by rw [isHtml_not_isPlainText hih]; simp)]
  rw [if_pos (by rw [hih, hH]; rfl)]

theorem addContent_attachment (e : Email) (ct cte disp : String) (body : List Nat)
    (subs : List MimePart) (mt : String) (data ad : List Nat)
    (hm : parseMediaType ct = .ok mt) (hq : applyQP cte body = .ok data)
    (hb : (if cte = "base64" then b64decode data else Except.ok data) = .ok ad)
    (h1 : (isPlainText mt && e.Text.isEmpty) = false)
    (h2 : (isHtml mt && e.Html.isNone) = false)
    (h3 : isMultipart mt = false) :
    addContent e (.part ct cte disp body subs) =
      (if getFilename disp = "" then
        if isPlainText mt then
          .ok { e with Attachments := e.Attachments ++ [⟨ad, "attachment.txt"⟩] }
        else if isHtml mt then
          .ok { e with Attachments := e.Attachments ++ [⟨ad, "attachment.html"⟩] }
        else .error (.unknownAttachmentType mt)
      else .ok { e with Attachments := e.Attachments ++ [⟨ad, getFilename disp⟩] }) := by
  rw [addContent.eq_def]
  simp only []
  rw [hq]
  simp only []
  rw [hm]
  simp only []
  rw [if_neg (by rw [h1]; simp), if_neg (by rw [h2]; simp), if_neg (by rw [h3]; simp)]
  rw [hb]

theorem addContent_multipartBranch (e : Email) (ct cte disp : String) (body : List Nat)
    (subs : List MimePart) (mt : String) (data : List Nat)
    (hm : parseMediaType ct = .ok mt) (hq : applyQP cte body = .ok data)
    (h1 : (isPlainText mt && e.Text.isEmpty) = false)
    (h2 : (isHtml mt && e.Html.isNone) = false)
    (h3 : isMultipart mt = true) :
    addContent e (.part ct cte disp body subs) = addParts e subs := by
  rw [addContent.eq_def]
  simp only []
  rw [hq]
  simp only []
  rw [hm]
  simp only []
  rw [if_neg (by rw [h1]; simp), if_neg (by rw [h2]; simp), if_pos h3]

/-! Claim theorems. -/

/-- C1, counterexample: a text/plain part arriving when the record's text is
already non-empty is not dropped: the if-chain in addContent falls through to
the attachment branch, which appends an Attachment (filename attachment.txt);
likewise a text/html part arriving when html is already set is appended with
filename attachment.html.  This refutes the claim that such parts are
silently dropped with no Attachment appended. -/
theorem c1_counterexample :
    addContent ⟨"", "", "", "", [], none, [120], []⟩ (.part "text/plain" "" "" [104, 105] [])
      = .ok ⟨"", "", "", "", [], none, [120], [⟨[104, 105], "attachment.txt"⟩]⟩ ∧
    addContent ⟨"", "", "", "", [], some ⟨[], "email-content.html"⟩, [], []⟩
        (.part "text/html" "" "" [104, 105] [])
      = .ok ⟨"", "", "", "", [], some ⟨[], "email-content.html"⟩, [],
          [⟨[104, 105], "attachment.html"⟩]⟩ := by
  constructor <;> (rw [addContent.eq_def]; simp only [applyQP]; decide)

/-- C1, amended: a part whose media type has prefix text/plain while
record.text is already non-empty, or prefix text/html while record.html is
already set, falls through to the attachment branch and is appended to
record.attachments, with filename taken from the Content-Disposition value
when resolvable and otherwise attachment.txt respectively attachment.html. -/
theorem c1_amended (e : Email) (ct cte disp : String) (body : List Nat) (subs : List MimePart)
    (mt : String) (data ad : List Nat)
    (hm : parseMediaType ct = .ok mt) (hq : applyQP cte body = .ok data)
    (hb : (if cte = "base64" then b64decode data else Except.ok data) = .ok ad) :
    (isPlainText mt = true → e.Text ≠ [] →
      addContent e (.part ct cte disp body subs)
        = .ok { e with Attachments := e.Attachments ++
            [⟨ad, if getFilename disp = "" then "attachment.txt" else getFilename disp⟩] }) ∧
    (isHtml mt = true → e.Html ≠ none →
      addContent e (.part ct cte disp body subs)
        = .ok { e with Attachments := e.Attachments ++
            [⟨ad, if getFilename disp = "" then "attachment.html" else getFilename disp⟩] }) := by
  constructor
  · intro hpt hne
    have hTe : e.Text.isEmpty = false := by
      cases hx : e.Text.isEmpty
      · rfl
      · exact absurd (List.isEmpty_iff.mp hx) hne
    rw [addContent_attachment e ct cte disp body subs mt data ad hm hq hb
      (by rw [hTe]; simp) (by rw [isPlainText_not_isHtml hpt]; simp)
      (isPlainText_not_isMultipart hpt)]
    by_cases hf : getFilename disp = ""
    · rw [if_pos hf, if_pos hpt, if_pos hf]
    · rw [if_neg hf, if_neg hf]
  · intro hih hne
    have hHn : e.Html.isNone = false := by
      cases hx : e.Html.isNone
      · rfl
      · exact absurd (Option.isNone_iff_eq_none.mp hx) hne
    rw [addContent_attachment e ct cte disp body subs mt data ad hm hq hb
      (by rw [isHtml_not_isPlainText hih]; simp) (by rw [hHn]; simp)
      (isHtml_not_isMultipart hih)]
    by_cases hf : getFilename disp = ""
    · rw [if_pos hf, isHtml_not_isPlainText hih]
      simp only [Bool.false_eq_true, if_false]
      rw [if_pos hih, if_pos hf]
    · rw [if_neg hf, if_neg hf]

/-- C1, witness for the amended theorem at a concrete input: a second
text/plain part with no disposition becomes an attachment.txt attachment. -/
theorem c1_amended_witness :
    addContent ⟨"", "", "", "", [], none, [120], []⟩ (.part "text/plain" "" "" [104] [])
      = .ok ⟨"", "", "", "", [], none, [120], [⟨[104], "attachment.txt"⟩]⟩ :=
  (((c1_amended ⟨"", "", "", "", [], none, [120], []⟩ "text/plain" "" "" [104] []
      "text/plain" [104] [104] (by decide) (by decide) (by decide)).1
    (by decide) (by decide)).trans (by decide))

/-- C2, counterexample: with a first text/plain part whose decoded body is
empty, the final text comes from the second text/plain part, so the final
text is not the decoded body of the first text/plain part encountered. -/
theorem c2_counterexample :
    addParts ⟨"", "", "", "", [], none, [], []⟩
        [.part "text/plain" "" "" [] [], .part "text/plain" "" "" [97] []]
      = .ok ⟨"", "", "", "", [], none, [97], []⟩ ∧
    applyQP "" [] = .ok [] ∧
    nlToBr [] ≠ [97] := by
  refine ⟨?_, by decide, by decide⟩
  simp only [addParts, addContent, applyQP]
  decide

/-- C2, amended: once record.text is non-empty it is never overwritten and
once record.html is set it is never replaced; the final html is built from
the first text/html part in depth-first document order at any depth; the
final text is built from the first text/plain part whose decoded body is
non-empty (a text/plain part with an empty decoded body leaves the slot
empty for a later part); and the attachments list is extended, in exactly
depth-first document order, by the contributions described by the walkAttsL
mirror of the walk. -/
theorem c2_amended (e : Email) (ps : List MimePart) (e' : Email)
    (h : addParts e ps = .ok e') :
    (e.Text ≠ [] → e'.Text = e.Text) ∧
    (∀ a, e.Html = some a → e'.Html = some a) ∧
    (e.Html = none →
      e'.Html = (firstHtmlL ps).map (fun d => ⟨d, "email-content.html"⟩)) ∧
    (e.Text = [] → e'.Text = ((firstTextL ps).map nlToBr).getD []) ∧
    (∃ l, walkAttsL e.Text.isEmpty e.Html.isSome ps
        = .ok (l, e'.Text.isEmpty, e'.Html.isSome) ∧
      e'.Attachments = e.Attachments ++ l) :=
  addParts_spec e ps e' h

/-- C2, witness for the amended theorem at a concrete three-part message:
text, then html, then a pdf attachment. -/
theorem c2_amended_witness :
    addParts ⟨"", "", "", "", [], none, [], []⟩
        [.part "text/plain" "" "" [104, 10] [], .part "text/html" "" "" [60] [],
          .part "application/pdf" "" "a; filename=\"f.pdf\"" [1, 2] []]
      = .ok ⟨"", "", "", "", [], some ⟨[60], "email-content.html"⟩,
          [104, 60, 98, 114, 62, 10], [⟨[1, 2], "f.pdf"⟩]⟩ ∧
    (⟨"", "", "", "", [], some ⟨[60], "email-content.html"⟩,
        [104, 60, 98, 114, 62, 10], [⟨[1, 2], "f.pdf"⟩]⟩ : Email).Html
      = (firstHtmlL [.part "text/plain" "" "" [104, 10] [], .part "text/html" "" "" [60] [],
          .part "application/pdf" "" "a; filename=\"f.pdf\"" [1, 2] []]).map
            (fun d => ⟨d, "email-content.html"⟩) ∧
    (⟨"", "", "", "", [], some ⟨[60], "email-content.html"⟩,
        [104, 60, 98, 114, 62, 10], [⟨[1, 2], "f.pdf"⟩]⟩ : Email).Text
      = ((firstTextL [.part "text/plain" "" "" [104, 10] [], .part "text/html" "" "" [60] [],
          .part "application/pdf" "" "a; filename=\"f.pdf\"" [1, 2] []]).map nlToBr).getD [] ∧
    (∃ l, walkAttsL true false
        [.part "text/plain" "" "" [104, 10] [], .part "text/html" "" "" [60] [],
          .part "application/pdf" "" "a; filename=\"f.pdf\"" [1, 2] []]
        = .ok (l, false, true) ∧
      ([⟨[1, 2], "f.pdf"⟩] : List Attachment) = [] ++ l) := by
  have hrun : addParts ⟨"", "", "", "", [], none, [], []⟩
      [.part "text/plain" "" "" [104, 10] [], .part "text/html" "" "" [60] [],
        .part "application/pdf" "" "a; filename=\"f.pdf\"" [1, 2] []]
      = .ok ⟨"", "", "", "", [], some ⟨[60], "email-content.html"⟩,
          [104, 60, 98, 114, 62, 10], [⟨[1, 2], "f.pdf"⟩]⟩ := by
    simp only [addParts, addContent, applyQP]
    decide
  have h := c2_amended _ _ _ hrun
  exact ⟨hrun, h.2.2.1 rfl, h.2.2.2.1 rfl, h.2.2.2.2⟩

theorem getFilename_eq_spec (d : String) : getFilename d = specFilename d := by
  unfold getFilename specFilename
  cases h : splitOnChar ';' d.data with
  | nil => simp [splitOnChar, trimChar, List.getD]
  | cons a t =>
    cases t with
    | nil => simp [splitOnChar, trimChar, List.getD]
    | cons b t2 =>
      simp only [List.getD_cons_succ, List.getD_cons_zero]
      cases h2 : splitOnChar '=' b with
      | nil => simp [trimChar, List.getD]
      | cons x s2 =>
        cases s2 with
        | nil => simp [trimChar, List.getD]
        | cons y s3 => simp [List.getD]

/-- C3: filename resolution.  First, the code's getFilename coincides with
the algorithm the specification describes (split on the semicolon, segment
index 1, split on the equals sign, segment index 1, strip surrounding double
quotes, empty on missing segments); second, the worked example from the
specification; third, in the attachment branch an unresolvable (empty)
filename falls back to attachment.txt for text/plain media types,
attachment.html for text/html, and otherwise fails the conversion with the
UnknownAttachmentType error. -/
theorem c3_filename_resolution :
    (∀ d : String, getFilename d = specFilename d) ∧
    getFilename "attachment; filename=\"report.pdf\"" = "report.pdf" ∧
    (∀ (e : Email) (ct cte disp : String) (body : List Nat) (subs : List MimePart)
      (mt : String) (data ad : List Nat),
      parseMediaType ct = .ok mt → applyQP cte body = .ok data →
      (if cte = "base64" then b64decode data else Except.ok data) = .ok ad →
      (isPlainText mt && e.Text.isEmpty) = false →
      (isHtml mt && e.Html.isNone) = false →
      isMultipart mt = false →
      getFilename disp = "" →
      addContent e (.part ct cte disp body subs) =
        (if isPlainText mt then
          .ok { e with Attachments := e.Attachments ++ [⟨ad, "attachment.txt"⟩] }
        else if isHtml mt then
          .ok { e with Attachments := e.Attachments ++ [⟨ad, "attachment.html"⟩] }
        else .error (.unknownAttachmentType mt))) := by
  refine ⟨getFilename_eq_spec, by decide, ?_⟩
  intro e ct cte disp body subs mt data ad hm hq hb h1 h2 h3 hf
  rw [addContent_attachment e ct cte disp body subs mt data ad hm hq hb h1 h2 h3, if_pos hf]

/-- C3, witness: the worked example resolves to report.pdf, and an
attachment part with empty disposition and media type application/pdf fails
with the UnknownAttachmentType error. -/
theorem c3_witness :
    getFilename "attachment; filename=\"report.pdf\"" = "report.pdf" ∧
    addContent ⟨"", "", "", "", [], none, [], []⟩ (.part "application/pdf" "" "" [1] [])
      = .error (.unknownAttachmentType "application/pdf") := by
  refine ⟨c3_filename_resolution.2.1, ?_⟩
  have h := c3_filename_resolution.2.2 ⟨"", "", "", "", [], none, [], []⟩ "application/pdf" ""
    "" [1] [] "application/pdf" [1] [1] (by decide) (by decide) (by decide) (by decide)
    (by decide) (by decide) (by decide)
  exact h.trans (by decide)

deriving instance DecidableEq for DecodeResult

theorem handleMessage_unfold (dec : String → DecodeResult) (m : RawMessage) (mt : String)
    (hm : parseMediaType m.contentType = .ok mt) :
    handleMessage dec m =
      (match decodeRFC2047Word dec m.fromV with
      | (_, some er) => .error er
      | (fromD, none) =>
        match decodeRFC2047Word dec m.toV with
        | (_, some er) => .error er
        | (toD, none) =>
          match decodeRFC2047Word dec m.subjectV with
          | (_, some er) => .error er
          | (subjectD, none) =>
            match decodeHeaderMap dec m.headerValues with
            | .error er => .error er
            | .ok headers =>
              let email : Email := ⟨m.dateV, fromD, toD, subjectD, headers, none, [], []⟩
              if isMultipart mt then addParts email m.subs
              else addContent email
                (.part m.contentType m.cte m.disposition m.body m.subs)) := by
  unfold handleMessage
  rw [hm]

theorem decodeValues_error_shape (dec : String → DecodeResult) :
    ∀ (vs : List String) (er : ConvError), decodeValues dec vs = .error er →
      ∃ cs, er = .charset cs
  | [], er => by
    intro h
    exact absurd h (by simp [decodeValues])
  | v :: rest, er => by
    intro h
    unfold decodeValues at h
    cases hd : dec v with
    | decoded d =>
      rw [decodeRFC2047Word, hd] at h
      simp only [] at h
      cases hr : decodeValues dec rest with
      | error er2 =>
        rw [hr] at h
        simp only [Except.error.injEq] at h
        exact h ▸ decodeValues_error_shape dec rest er2 hr
      | ok ds =>
        rw [hr] at h
        exact absurd h (by simp)
    | charsetErr cs =>
      rw [decodeRFC2047Word, hd] at h
      simp only [Except.error.injEq] at h
      exact ⟨cs, h.symm⟩
    | otherErr =>
      rw [decodeRFC2047Word, hd] at h
      simp only [] at h
      cases hr : decodeValues dec rest with
      | error er2 =>
        rw [hr] at h
        simp only [Except.error.injEq] at h
        exact h ▸ decodeValues_error_shape dec rest er2 hr
      | ok ds =>
        rw [hr] at h
        exact absurd h (by simp)

theorem decodeValues_charset (dec : String → DecodeResult) :
    ∀ (vs : List String) (v : String) (cs : String), v ∈ vs → dec v = .charsetErr cs →
      ∃ cs', decodeValues dec vs = .error (.charset cs')
  | [], v, cs => by
    intro hv
    exact absurd hv (List.not_mem_nil v)
  | v0 :: rest, v, cs => by
    intro hv hcs
    cases hd : dec v0 with
    | charsetErr c0 =>
      exact ⟨c0, by unfold decodeValues; rw [decodeRFC2047Word, hd]⟩
    | decoded d =>
      rcases List.mem_cons.mp hv with rfl | hv'
      · rw [hd] at hcs
        exact absurd hcs (by simp)
      · obtain ⟨cs', hrest⟩ := decodeValues_charset dec rest v cs hv' hcs
        refine ⟨cs', ?_⟩
        unfold decodeValues
        rw [decodeRFC2047Word, hd]
        simp only []
        rw [hrest]
    | otherErr =>
      rcases List.mem_cons.mp hv with rfl | hv'
      · rw [hd] at hcs
        exact absurd hcs (by simp)
      · obtain ⟨cs', hrest⟩ := decodeValues_charset dec rest v cs hv' hcs
        refine ⟨cs', ?_⟩
        unfold decodeValues
        rw [decodeRFC2047Word, hd]
        simp only []
        rw [hrest]

theorem decodeHeaderMap_error_shape (dec : String → DecodeResult) :
    ∀ (hs : List (String × List String)) (er : ConvError),
      decodeHeaderMap dec hs = .error er → ∃ cs, er = .charset cs
  | [], er => by
    intro h
    exact absurd h (by simp [decodeHeaderMap])
  | (k, vs) :: rest, er => by
    intro h
    unfold decodeHeaderMap at h
    cases hd : decodeValues dec vs with
    | error er2 =>
      rw [hd] at h
      simp only [Except.error.injEq] at h
      exact h ▸ decodeValues_error_shape dec vs er2 hd
    | ok ds =>
      rw [hd] at h
      simp only [] at h
      cases hr : decodeHeaderMap dec rest with
      | error er2 =>
        rw [hr] at h
        simp only [Except.error.injEq] at h
        exact h ▸ decodeHeaderMap_error_shape dec rest er2 hr
      | ok hs2 =>
        rw [hr] at h
        exact absurd h (by simp)

theorem decodeHeaderMap_charset (dec : String → DecodeResult) :
    ∀ (hs : List (String × List String)) (k : String) (vs : List String) (v cs : String),
      (k, vs) ∈ hs → v ∈ vs → dec v = .charsetErr cs →
      ∃ cs', decodeHeaderMap dec hs = .error (.charset cs')
  | [], k, vs, v, cs => by
    intro hk
    exact absurd hk (List.not_mem_nil _)
  | (k0, vs0) :: rest, k, vs, v, cs => by
    intro hk hv hcs
    cases hd : decodeValues dec vs0 with
    | error er =>
      obtain ⟨cs', hshape⟩ := decodeValues_error_shape dec vs0 er hd
      refine ⟨cs', ?_⟩
      unfold decodeHeaderMap
      rw [hd, hshape]
    | ok ds =>
      rcases List.mem_cons.mp hk with heq | hk'
      · injection heq with h1 h2
        subst h2
        obtain ⟨cs', hbad⟩ := decodeValues_charset dec vs v cs hv hcs
        rw [hd] at hbad
        exact absurd hbad (by simp)
      · obtain ⟨cs', hrest⟩ := decodeHeaderMap_charset dec rest k vs v cs hk' hv hcs
        refine ⟨cs', ?_⟩
        unfold decodeHeaderMap
        rw [hd]
        simp only []
        rw [hrest]

theorem decodeRFC2047Word_shape (dec : String → DecodeResult) (s : String) :
    (∃ cs, decodeRFC2047Word dec s = (s, some (.charset cs))) ∨
    ((∀ cs, dec s ≠ .charsetErr cs) ∧ ∃ x, decodeRFC2047Word dec s = (x, none)) := by
  cases h : dec s with
  | decoded d =>
    exact .inr ⟨fun cs hc => DecodeResult.noConfusion hc, d,
      by rw [decodeRFC2047Word, h]⟩
  | charsetErr cs =>
    exact .inl ⟨cs, by rw [decodeRFC2047Word, h]⟩
  | otherErr =>
    exact .inr ⟨fun cs hc => DecodeResult.noConfusion hc, s,
      by rw [decodeRFC2047Word, h]⟩

/-- C4: RFC 2047 decoding policy.  Decoding success returns the decoded text
with no error; an unsupported-charset failure returns the original string
together with the charset error; any other failure returns the original
string with no error; and an unsupported-charset failure on From, To,
Subject or on any value of any header field aborts the whole conversion
with a charset error. -/
theorem c4_header_decode_policy :
    (∀ (dec : String → DecodeResult) (s d : String),
      dec s = .decoded d → decodeRFC2047Word dec s = (d, none)) ∧
    (∀ (dec : String → DecodeResult) (s cs : String),
      dec s = .charsetErr cs → decodeRFC2047Word dec s = (s, some (.charset cs))) ∧
    (∀ (dec : String → DecodeResult) (s : String),
      dec s = .otherErr → decodeRFC2047Word dec s = (s, none)) ∧
    (∀ (dec : String → DecodeResult) (m : RawMessage) (mt : String),
      parseMediaType m.contentType = .ok mt →
      ((∃ cs, dec m.fromV = .charsetErr cs) ∨
       (∃ cs, dec m.toV = .charsetErr cs) ∨
       (∃ cs, dec m.subjectV = .charsetErr cs) ∨
       (∃ k vs, (k, vs) ∈ m.headerValues ∧ ∃ v ∈ vs, ∃ cs, dec v = .charsetErr cs)) →
      ∃ cs, handleMessage dec m = .error (.charset cs)) := by
  refine ⟨?_, ?_, ?_, ?_⟩
  · intro dec s d h
    rw [decodeRFC2047Word, h]
  · intro dec s cs h
    rw [decodeRFC2047Word, h]
  · intro dec s h
    rw [decodeRFC2047Word, h]
  · intro dec m mt hm hbad
    rw [handleMessage_unfold dec m mt hm]
    rcases decodeRFC2047Word_shape dec m.fromV with ⟨cs, hF⟩ | ⟨hFne, xF, hF⟩
    · exact ⟨cs, by rw [hF]⟩
    · rw [hF]
      simp only []
      rcases decodeRFC2047Word_shape dec m.toV with ⟨cs, hT⟩ | ⟨hTne, xT, hT⟩
      · exact ⟨cs, by rw [hT]⟩
      · rw [hT]
        simp only []
        rcases decodeRFC2047Word_shape dec m.subjectV with ⟨cs, hS⟩ | ⟨hSne, xS, hS⟩
        · exact ⟨cs, by rw [hS]⟩
        · rw [hS]
          simp only []
          rcases hbad with ⟨cs, hcs⟩ | ⟨cs, hcs⟩ | ⟨cs, hcs⟩ | ⟨k, vs, hk, v, hv, cs, hcs⟩
          · exact absurd hcs (hFne cs)
          · exact absurd hcs (hTne cs)
          · exact absurd hcs (hSne cs)
          · obtain ⟨cs', hmap⟩ := decodeHeaderMap_charset dec m.headerValues k vs v cs hk hv hcs
            exact ⟨cs', by rw [hmap]⟩

/-- C4, witness: a concrete oracle rejecting one encoded word shows all four
policy cases, including the conversion-wide abort caused by a bad Subject
header value. -/
theorem c4_witness :
    decodeRFC2047Word
        (fun s => if s = "=?bad?=" then DecodeResult.charsetErr "x-unknown" else .decoded s)
        "alice" = ("alice", none) ∧
    decodeRFC2047Word
        (fun s => if s = "=?bad?=" then DecodeResult.charsetErr "x-unknown" else .decoded s)
        "=?bad?=" = ("=?bad?=", some (.charset "x-unknown")) ∧
    decodeRFC2047Word (fun _ => DecodeResult.otherErr) "z" = ("z", none) ∧
    (∃ cs, handleMessage
        (fun s => if s = "=?bad?=" then DecodeResult.charsetErr "x-unknown" else .decoded s)
        ⟨"text/plain", "alice", "bob", "carol", "today",
          [("Subject", ["=?bad?="])], "", "", [], []⟩
      = .error (.charset cs)) := by
  refine ⟨c4_header_decode_policy.1 _ "alice" "alice" (by decide),
    c4_header_decode_policy.2.1 _ "=?bad?=" "x-unknown" (by decide),
    c4_header_decode_policy.2.2.1 _ "z" rfl, ?_⟩
  exact c4_header_decode_policy.2.2.2 _ _ "text/plain" (by decide)
    (.inr (.inr (.inr ⟨"Subject", ["=?bad?="], by decide,
      "=?bad?=", by decide, "x-unknown", by decide⟩)))

/-- C5, counterexample: a text/plain part that arrives when the text slot is
already filled falls through to the attachment branch and IS base64-decoded
there when it declares Content-Transfer-Encoding base64 (body "QUJD"
becomes bytes 65 66 67), refuting the claim that parts with media type
text/plain are never base64-decoded. -/
theorem c5_counterexample :
    addContent ⟨"", "", "", "", [], none, [120], []⟩
        (.part "text/plain" "base64" "a; filename=\"f\"" [81, 85, 74, 68] [])
      = .ok ⟨"", "", "", "", [], none, [120], [⟨[65, 66, 67], "f"⟩]⟩ ∧
    ([65, 66, 67] : List Nat) ≠ [81, 85, 74, 68] := by
  refine ⟨?_, by decide⟩
  rw [addContent.eq_def]
  simp only [applyQP]
  decide

/-- C5, amended: quoted-printable decoding wraps the read path before the
body is consumed, so a quoted-printable part behaves in every branch like
an identity-encoded part with the pre-decoded body; parts consumed by the
text or html branch are never base64-decoded even under
Content-Transfer-Encoding base64; base64 decoding happens in the attachment
branch, which a text or html typed part reaches when its slot is already
filled, and then it is base64-decoded. -/
theorem c5_amended :
    (∀ (e : Email) (ct disp : String) (body d : List Nat) (subs : List MimePart),
      qpDecodeBytes body = .ok d →
      addContent e (.part ct "quoted-printable" disp body subs)
        = addContent e (.part ct "" disp d subs)) ∧
    (∀ (e : Email) (ct disp : String) (body : List Nat) (subs : List MimePart) (mt : String),
      parseMediaType ct = .ok mt → isPlainText mt = true → e.Text = [] →
      addContent e (.part ct "base64" disp body subs) = .ok { e with Text := nlToBr body }) ∧
    (∀ (e : Email) (ct disp : String) (body : List Nat) (subs : List MimePart) (mt : String),
      parseMediaType ct = .ok mt → isHtml mt = true → e.Html = none →
      addContent e (.part ct "base64" disp body subs)
        = .ok { e with Html := some ⟨body, "email-content.html"⟩ }) ∧
    (∀ (e : Email) (ct disp : String) (body ad : List Nat) (subs : List MimePart) (mt : String),
      parseMediaType ct = .ok mt →
      (isPlainText mt && e.Text.isEmpty) = false → (isHtml mt && e.Html.isNone) = false →
      isMultipart mt = false → b64decode body = .ok ad → getFilename disp ≠ "" →
      addContent e (.part ct "base64" disp body subs)
        = .ok { e with Attachments := e.Attachments ++ [⟨ad, getFilename disp⟩] }) := by
  refine ⟨?_, ?_, ?_, ?_⟩
  · intro e ct disp body d subs hqp
    rw [addContent.eq_def, addContent.eq_def]
    simp only [applyQP, hqp, reduceIte]
    simp only [if_neg (show ¬("quoted-printable" = "base64") from by decide),
      if_neg (show ¬("" = "base64") from by decide)]
    rfl
  · intro e ct disp body subs mt hm hpt hT
    exact addContent_textBranch e ct "base64" disp body subs mt body hm
      (by simp [applyQP]) hpt hT
  · intro e ct disp body subs mt hm hih hH
    exact addContent_htmlBranch e ct "base64" disp body subs mt body hm
      (by simp [applyQP]) hih hH
  · intro e ct disp body ad subs mt hm h1 h2 h3 hb hf
    rw [addContent_attachment e ct "base64" disp body subs mt body ad hm
      (by simp [applyQP]) (by rw [if_pos rfl]; exact hb) h1 h2 h3, if_neg hf]

/-- C5, witness: a text part with Content-Transfer-Encoding base64 keeps its
raw bytes (no base64 decode), and a quoted-printable text part equals the
identity part with the decoded body. -/
theorem c5_witness :
    addContent ⟨"", "", "", "", [], none, [], []⟩ (.part "text/plain" "base64" "" [81, 85] [])
      = .ok ⟨"", "", "", "", [], none, [81, 85], []⟩ ∧
    addContent ⟨"", "", "", "", [], none, [], []⟩
        (.part "text/plain" "quoted-printable" "" [104, 61, 52, 49] [])
      = addContent ⟨"", "", "", "", [], none, [], []⟩ (.part "text/plain" "" "" [104, 65] []) := by
  constructor
  · exact (c5_amended.2.1 ⟨"", "", "", "", [], none, [], []⟩ "text/plain" "" [81, 85] []
      "text/plain" (by decide) (by decide) (by decide)).trans (by decide)
  · exact c5_amended.1 ⟨"", "", "", "", [], none, [], []⟩ "text/plain" "" [104, 61, 52, 49]
      [104, 65] [] (by decide)

/-- C6, counterexample: the Content-Transfer-Encoding value is compared
case-sensitively against the raw header value, with no lower-casing: a part
declaring BASE64 is NOT base64-decoded (its bytes pass through unchanged),
refuting the claim that a value whose lower-casing is base64 is decoded. -/
theorem c6_counterexample :
    addContent ⟨"", "", "", "", [], none, [], []⟩
        (.part "application/pdf" "BASE64" "a; filename=\"f\"" [81, 85, 74, 68] [])
      = .ok ⟨"", "", "", "", [], none, [], [⟨[81, 85, 74, 68], "f"⟩]⟩ ∧
    b64decode [81, 85, 74, 68] = .ok [65, 66, 67] ∧
    ([81, 85, 74, 68] : List Nat) ≠ [65, 66, 67] := by
  refine ⟨?_, by decide, by decide⟩
  rw [addContent.eq_def]
  simp only [applyQP]
  decide

/-- C6, amended: the transfer decoder recognizes exactly the raw values
quoted-printable (streaming decode of the read path) and base64 (in the
attachment branch); any other raw value, including BASE64 and the absent
header, is identity: the body bytes reach the chosen branch unchanged. -/
theorem c6_amended :
    (∀ body : List Nat, applyQP "quoted-printable" body = qpDecodeBytes body) ∧
    (∀ (cte : String) (body : List Nat), cte ≠ "quoted-printable" →
      applyQP cte body = .ok body) ∧
    (∀ (e : Email) (ct disp : String) (body ad : List Nat) (subs : List MimePart) (mt : String),
      parseMediaType ct = .ok mt →
      (isPlainText mt && e.Text.isEmpty) = false → (isHtml mt && e.Html.isNone) = false →
      isMultipart mt = false → b64decode body = .ok ad → getFilename disp ≠ "" →
      addContent e (.part ct "base64" disp body subs)
        = .ok { e with Attachments := e.Attachments ++ [⟨ad, getFilename disp⟩] }) ∧
    (∀ (e : Email) (ct cte disp : String) (body : List Nat) (subs : List MimePart) (mt : String),
      cte ≠ "quoted-printable" → cte ≠ "base64" →
      parseMediaType ct = .ok mt →
      (isPlainText mt && e.Text.isEmpty) = false → (isHtml mt && e.Html.isNone) = false →
      isMultipart mt = false → getFilename disp ≠ "" →
      addContent e (.part ct cte disp body subs)
        = .ok { e with Attachments := e.Attachments ++ [⟨body, getFilename disp⟩] }) := by
  refine ⟨?_, ?_, ?_, ?_⟩
  · intro body
    rw [applyQP, if_pos rfl]
  · intro cte body hne
    rw [applyQP, if_neg hne]
  · intro e ct disp body ad subs mt hm h1 h2 h3 hb hf
    rw [addContent_attachment e ct "base64" disp body subs mt body ad hm
      (by simp [applyQP]) (by rw [if_pos rfl]; exact hb) h1 h2 h3, if_neg hf]
  · intro e ct cte disp body subs mt hq64 hb64 hm h1 h2 h3 hf
    rw [addContent_attachment e ct cte disp body subs mt body body hm
      (by rw [applyQP, if_neg hq64]) (by rw [if_neg hb64]) h1 h2 h3, if_neg hf]

/-- C6, witness: BASE64 (upper case) is identity on an attachment body. -/
theorem c6_witness :
    addContent ⟨"", "", "", "", [], none, [], []⟩
        (.part "application/pdf" "BASE64" "a; filename=\"g\"" [81, 85, 74, 68] [])
      = .ok ⟨"", "", "", "", [], none, [], [⟨[81, 85, 74, 68], "g"⟩]⟩ ∧
    applyQP "BASE64" [81] = .ok [81] := by
  constructor
  · exact (c6_amended.2.2.2 ⟨"", "", "", "", [], none, [], []⟩ "application/pdf" "BASE64"
      "a; filename=\"g\"" [81, 85, 74, 68] [] "application/pdf" (by decide) (by decide)
      (by decide) (by decide) (by decide) (by decide) (by decide)).trans (by decide)
  · exact c6_amended.2.1 "BASE64" [81] (by decide)

/-- C7, counterexample: a Content-Disposition with an extra parameter before
filename does not make extraction return the empty string: getFilename
returns the second segment's equals-value, here utf-8, and the attachment
is created under that wrong name instead of falling back (or erroring for
application/pdf). -/
theorem c7_counterexample :
    getFilename "attachment; charset=utf-8; filename=\"report.pdf\"" = "utf-8" ∧
    ("utf-8" : String) ≠ "" ∧
    addContent ⟨"", "", "", "", [], none, [], []⟩
        (.part "application/pdf" "" "attachment; charset=utf-8; filename=\"report.pdf\"" [1] [])
      = .ok ⟨"", "", "", "", [], none, [], [⟨[1], "utf-8"⟩]⟩ := by
  refine ⟨by decide, by decide, ?_⟩
  rw [addContent.eq_def]
  simp only [applyQP]
  decide

/-- C7, amended: extraction looks only at semicolon-segment index 1: when
that segment is not the filename parameter, any later filename parameter is
ignored and the result is that segment's equals-value stripped of double
quotes; the empty string — and with it the fall back to the media type's
extension default — results exactly when that value strips to nothing: the
segment has no equals sign, or the value after its first equals sign is
empty or consists only of double quotes. -/
theorem c7_amended :
    (∀ (d : String) (seg : List Char), (splitOnChar ';' d.data).get? 1 = some seg →
      getFilename d =
        (match splitOnChar '=' seg with
          | _ :: f1 :: _ => (⟨trimChar '"' f1⟩ : String)
          | _ => "")) ∧
    (∀ (d : String) (seg : List Char), (splitOnChar ';' d.data).get? 1 = some seg →
      (getFilename d = "" ↔ trimChar '"' ((splitOnChar '=' seg).getD 1 []) = [])) := by
  have main : ∀ (d : String) (seg : List Char), (splitOnChar ';' d.data).get? 1 = some seg →
      getFilename d =
        (match splitOnChar '=' seg with
          | _ :: f1 :: _ => (⟨trimChar '"' f1⟩ : String)
          | _ => "") := by
    intro d seg hseg
    unfold getFilename
    cases h : splitOnChar ';' d.data with
    | nil => rw [h] at hseg; exact absurd hseg (by simp)
    | cons a t =>
      cases t with
      | nil => rw [h] at hseg; exact absurd hseg (by simp)
      | cons b t2 =>
        rw [h] at hseg
        simp only [List.get?_cons_succ, List.get?_cons_zero, Option.some.injEq] at hseg
        subst hseg
        rfl
  refine ⟨main, ?_⟩
  intro d seg hseg
  rw [main d seg hseg]
  cases h2 : splitOnChar '=' seg with
  | nil => simp [trimChar, List.getD]
  | cons x s2 =>
    cases s2 with
    | nil => simp [trimChar, List.getD]
    | cons y s3 =>
      simp only [List.getD_cons_succ, List.getD_cons_zero]
      constructor
      · intro h
        have hd := congrArg String.data h
        simpa using hd
      · intro h
        rw [h]

/-- C7, witness: with disposition attachment; charset=utf-8; filename="q"
the second segment is the charset parameter, so the resolved name is utf-8;
with disposition inline; foo; filename="q" the second segment has no equals
sign and the result is empty; with disposition attachment; x=; filename="q"
the second segment contains an equals sign but its value is empty, and the
result is empty as well. -/
theorem c7_witness :
    getFilename "attachment; charset=utf-8; filename=\"q\"" = "utf-8" ∧
    getFilename "inline; foo; filename=\"q\"" = "" ∧
    getFilename "attachment; x=; filename=\"q\"" = "" := by
  refine ⟨?_, ?_, ?_⟩
  · exact (c7_amended.1 "attachment; charset=utf-8; filename=\"q\""
      (" charset=utf-8".data) (by decide)).trans (by decide)
  · exact (c7_amended.2 "inline; foo; filename=\"q\"" (" foo".data) (by decide)).mpr (by decide)
  · exact (c7_amended.2 "attachment; x=; filename=\"q\"" (" x=".data) (by decide)).mpr (by decide)

/-- C8: for a message with a single non-multipart text/plain top-level body
whose headers decode without error, the resulting record's text equals the
decoded body with every newline byte replaced by the bytes of a br tag
followed by a newline, the html slot is unset, and the attachments list is
empty. -/
theorem c8_single_text (dec : String → DecodeResult) (m : RawMessage) (mt : String)
    (f t s : String) (hdrs : List (String × List String)) (d : List Nat)
    (hm : parseMediaType m.contentType = .ok mt) (hpt : isPlainText mt = true)
    (hf : decodeRFC2047Word dec m.fromV = (f, none))
    (ht : decodeRFC2047Word dec m.toV = (t, none))
    (hs : decodeRFC2047Word dec m.subjectV = (s, none))
    (hh : decodeHeaderMap dec m.headerValues = .ok hdrs)
    (hq : applyQP m.cte m.body = .ok d) :
    handleMessage dec m = .ok ⟨m.dateV, f, t, s, hdrs, none, nlToBr d, []⟩ := by
  rw [handleMessage_unfold dec m mt hm, hf]
  simp only []
  rw [ht]
  simp only []
  rw [hs]
  simp only []
  rw [hh]
  simp only []
  rw [if_neg (by rw [isPlainText_not_isMultipart hpt]; simp)]
  exact addContent_textBranch ⟨m.dateV, f, t, s, hdrs, none, [], []⟩ m.contentType m.cte
    m.disposition m.body m.subs mt d hm hq hpt rfl

/-- C8, witness: a concrete plain-text message with one newline in the
body. -/
theorem c8_witness :
    handleMessage (fun v => .decoded v)
      ⟨"text/plain; charset=us-ascii", "a", "b", "s", "d",
        [("From", ["a"])], "", "", [104, 10, 105], []⟩
      = .ok ⟨"d", "a", "b", "s", [("From", ["a"])], none,
          [104, 60, 98, 114, 62, 10, 105], []⟩ :=
  (c8_single_text (fun v => .decoded v)
    ⟨"text/plain; charset=us-ascii", "a", "b", "s", "d", [("From", ["a"])], "", "",
      [104, 10, 105], []⟩
    "text/plain" "a" "b" "s" [("From", ["a"])] [104, 10, 105]
    (by decide) (by decide) rfl rfl rfl (by decide) (by decide)).trans (by decide)

/-- C9: base64 round-trip.  Decoding the standard-alphabet base64 encoding
of any byte sequence yields exactly that sequence, and an attachment part
whose body is the base64 encoding of b, declared with
Content-Transfer-Encoding base64 and carrying a resolvable filename, is
appended as an Attachment whose data is byte-identical to b. -/
theorem c9_roundtrip :
    (∀ b : List Nat, (∀ x ∈ b, x < 256) → b64decode (b64encode b) = .ok b) ∧
    (∀ (e : Email) (ct disp : String) (b : List Nat) (subs : List MimePart) (mt : String),
      (∀ x ∈ b, x < 256) → parseMediaType ct = .ok mt →
      (isPlainText mt && e.Text.isEmpty) = false → (isHtml mt && e.Html.isNone) = false →
      isMultipart mt = false → getFilename disp ≠ "" →
      addContent e (.part ct "base64" disp (b64encode b) subs)
        = .ok { e with Attachments := e.Attachments ++ [⟨b, getFilename disp⟩] }) := by
  refine ⟨b64decode_encode, ?_⟩
  intro e ct disp b subs mt hb hm h1 h2 h3 hf
  rw [addContent_attachment e ct "base64" disp (b64encode b) subs mt (b64encode b) b hm
    (by simp [applyQP]) (by rw [if_pos rfl]; exact b64decode_encode b hb) h1 h2 h3, if_neg hf]

/-- C9, witness: round-trip at bytes 0, 255, 7 and the attachment pipeline
at the same bytes. -/
theorem c9_witness :
    b64decode (b64encode [0, 255, 7]) = .ok [0, 255, 7] ∧
    addContent ⟨"", "", "", "", [], none, [], []⟩
        (.part "application/pdf" "base64" "a; filename=\"f\"" (b64encode [0, 255, 7]) [])
      = .ok ⟨"", "", "", "", [], none, [], [⟨[0, 255, 7], "f"⟩]⟩ := by
  constructor
  · exact c9_roundtrip.1 [0, 255, 7] (by decide)
  · exact (c9_roundtrip.2 ⟨"", "", "", "", [], none, [], []⟩ "application/pdf"
      "a; filename=\"f\"" [0, 255, 7] [] "application/pdf" (by decide) (by decide) (by decide)
      (by decide) (by decide) (by decide)).trans (by decide)

/-- C10: a missing Content-Type header (the empty value) fails media-type
parsing with the no-media-type error; a top-level media-type parse failure
makes handleMessage fail with that media-type error before anything else is
attempted; a part whose Content-Type is absent or invalid makes addContent
fail with the media-type error once its body has been read; and a part
error propagates so the whole walk produces no record. -/
theorem c10_media_type_errors :
    parseMediaType "" = .error "mime: no media type" ∧
    (∀ (dec : String → DecodeResult) (m : RawMessage) (msg : String),
      parseMediaType m.contentType = .error msg →
      handleMessage dec m = .error (.mediaType msg)) ∧
    (∀ (e : Email) (ct cte disp : String) (body d : List Nat) (subs : List MimePart)
      (msg : String),
      applyQP cte body = .ok d → parseMediaType ct = .error msg →
      addContent e (.part ct cte disp body subs) = .error (.mediaType msg)) ∧
    (∀ (e : Email) (p : MimePart) (rest : List MimePart) (er : ConvError),
      addContent e p = .error er → addParts e (p :: rest) = .error er) := by
  refine ⟨by decide, ?_, ?_, ?_⟩
  · intro dec m msg hm
    unfold handleMessage
    rw [hm]
  · intro e ct cte disp body d subs msg hq hm
    rw [addContent.eq_def]
    simp only []
    rw [hq]
    simp only []
    rw [hm]
  · intro e p rest er hc
    rw [addParts.eq_def]
    simp only []
    rw [hc]

/-- C10, witness: a message whose header block has no Content-Type (the
empty value) is rejected with the media-type parse error, and a part with
no Content-Type likewise fails addContent. -/
theorem c10_witness :
    handleMessage (fun v => .decoded v) ⟨"", "a", "b", "s", "d", [], "", "", [104], []⟩
      = .error (.mediaType "mime: no media type") ∧
    addContent ⟨"", "", "", "", [], none, [], []⟩ (.part "" "" "" [104] [])
      = .error (.mediaType "mime: no media type") := by
  constructor
  · exact c10_media_type_errors.2.1 (fun v => .decoded v)
      ⟨"", "a", "b", "s", "d", [], "", "", [104], []⟩ "mime: no media type" (by decide)
  · exact c10_media_type_errors.2.2.1 ⟨"", "", "", "", [], none, [], []⟩ "" "" "" [104] [104]
      [] "mime: no media type" (by decide) (by decide)
